import Mathlib

/-!
Verification development for the hackathon scraper (`main.py`).

The file shallowly embeds the scraper's pure logic in Lean:

* `clean_text` embeds the text normalizer `clean_text` of `main.py`
  (strip Unicode symbol-category characters, collapse whitespace runs to a
  single space, strip leading/trailing whitespace).  The Unicode
  symbol-category test `unicodedata.category(ch).startswith("S")` performed
  by the external `unicodedata` library is abstracted as a parameter
  `isSym : Char → Bool`; the whitespace class of Python's `re`'s `\s` and of
  `str.strip` (both `Py_UNICODE_ISSPACE`) is embedded concretely as
  `pyIsSpace`.
* `fetch_challenges_page`, `fetch_projects_for_challenge`,
  `get_existing_hackathon_ids`, `load_all_data` and `load_hackathons` embed
  the crawl functions of `main.py`, with the HTTP API and the browser
  modelled as function parameters and the Supabase store modelled as an
  explicit `Store` value threaded through the computation.
-/

/-- The whitespace class used by Python's `re` module for `\s` over `str`
and by `str.strip()` (`Py_UNICODE_ISSPACE`): the code points
09–0D, 1C–1F, 20, 85, A0, 1680, 2000–200A, 2028, 2029, 202F, 205F, 3000. -/
def pyIsSpace (c : Char) : Bool :=
  let n := c.toNat
  (9 ≤ n && n ≤ 13) || (28 ≤ n && n ≤ 31) || n = 32 || n = 133 || n = 160 ||
  n = 0x1680 || (0x2000 ≤ n && n ≤ 0x200A) || n = 0x2028 || n = 0x2029 ||
  n = 0x202F || n = 0x205F || n = 0x3000

/-- The plain ASCII space character that `re.sub(r"\s+", " ", text)` inserts. -/
def spaceChar : Char := Char.ofNat 32

/-- One left-to-right pass implementing `re.sub(r"\s+", " ", text)`: every
maximal run of `pyIsSpace` characters is replaced by a single `spaceChar`.
The boolean flag records whether the previous character belonged to a
whitespace run whose replacement space has already been emitted. -/
def collapseAux : Bool → List Char → List Char
  | _, [] => []
  | prevSp, c :: cs =>
    if pyIsSpace c then
      if prevSp then collapseAux true cs
      else spaceChar :: collapseAux true cs
    else
      c :: collapseAux false cs

/-- `re.sub(r"\s+", " ", text)` on the character list of `text`. -/
def collapseWS (l : List Char) : List Char := collapseAux false l

/-- Python `str.strip()`: drop leading and trailing whitespace. -/
def stripWS (l : List Char) : List Char :=
  ((l.dropWhile pyIsSpace).reverse.dropWhile pyIsSpace).reverse

/-- Embedding of `clean_text` (main.py lines 44–57).  `isSym` stands for the
external `unicodedata` test `unicodedata.category(ch).startswith("S")`.
A `none` argument models Python `None`; `if not text` is true exactly for
`None` and the empty string. -/
def clean_text (isSym : Char → Bool) : Option String → String
  | none => ""
  | some s =>
    if s = "" then ""
    else ⟨stripWS (collapseWS (s.data.filter (fun c => !isSym c)))⟩

/-- Two adjacent characters are not both whitespace: the "no whitespace run
longer than 1" property, stated pairwise for use with `List.Chain'`. -/
def notBothSpace (a b : Char) : Prop :=
  ¬(pyIsSpace a = true ∧ pyIsSpace b = true)

theorem pyIsSpace_spaceChar : pyIsSpace spaceChar = true := by decide

theorem mem_collapseAux :
    ∀ (b : Bool) (l : List Char) (c : Char), c ∈ collapseAux b l →
      c = spaceChar ∨ (c ∈ l ∧ pyIsSpace c = false) := by
  intro b l
  induction l generalizing b with
  | nil => intro c h; simp [collapseAux] at h
  | cons c0 cs ih =>
    intro c h
    by_cases hc0 : pyIsSpace c0
    · cases b with
      | true =>
        simp only [collapseAux, hc0, if_pos, if_true] at h
        rcases ih true c h with h1 | ⟨h2, h3⟩
        · exact Or.inl h1
        · exact Or.inr ⟨List.mem_cons_of_mem _ h2, h3⟩
      | false =>
        simp only [collapseAux, hc0, if_pos, if_false] at h
        rcases List.mem_cons.mp h with h1 | h1
        · exact Or.inl h1
        · rcases ih true c h1 with h2 | ⟨h2, h3⟩
          · exact Or.inl h2
          · exact Or.inr ⟨List.mem_cons_of_mem _ h2, h3⟩
    · simp only [collapseAux, hc0, if_neg, if_false] at h
      rcases List.mem_cons.mp h with h1 | h1
      · subst h1
        exact Or.inr ⟨List.mem_cons_self _ _, Bool.not_eq_true _ ▸ eq_false_of_ne_true hc0⟩
      · rcases ih false c h1 with h2 | ⟨h2, h3⟩
        · exact Or.inl h2
        · exact Or.inr ⟨List.mem_cons_of_mem _ h2, h3⟩

theorem head_collapseAux_true :
    ∀ (l : List Char) (c : Char), (collapseAux true l).head? = some c →
      pyIsSpace c = false := by
  intro l
  induction l with
  | nil => intro c h; simp [collapseAux] at h
  | cons c0 cs ih =>
    intro c h
    by_cases hc0 : pyIsSpace c0
    · simp only [collapseAux, hc0, if_pos, if_true] at h
      exact ih c h
    · simp only [collapseAux] at h
      rw [if_neg hc0] at h
      simp only [List.head?_cons, Option.some.injEq] at h
      subst h
      exact eq_false_of_ne_true hc0

theorem chain_collapseAux :
    ∀ (l : List Char) (b : Bool), List.Chain' notBothSpace (collapseAux b l) := by
  intro l
  induction l with
  | nil => intro b; simp [collapseAux]
  | cons c0 cs ih =>
    intro b
    by_cases hc0 : pyIsSpace c0
    · cases b with
      | true =>
        simp only [collapseAux, hc0, if_pos, if_true]
        exact ih true
      | false =>
        have hrw : collapseAux false (c0 :: cs) = spaceChar :: collapseAux true cs := by
          simp [collapseAux, hc0]
        rw [hrw, List.chain'_cons']
        refine ⟨?_, ih true⟩
        intro y hy
        have hys : pyIsSpace y = false :=
          head_collapseAux_true cs y (Option.mem_def.mp hy)
        intro hcon
        rw [hys] at hcon
        exact Bool.false_ne_true hcon.2
    · simp only [collapseAux] at *
      rw [if_neg hc0]
      rw [List.chain'_cons']
      refine ⟨?_, ih false⟩
      intro y _
      intro hcon
      exact hc0 hcon.1

theorem spaces_collapseAux (b : Bool) (l : List Char) (c : Char)
    (hmem : c ∈ collapseAux b l) (hsp : pyIsSpace c = true) : c = spaceChar := by
  rcases mem_collapseAux b l c hmem with h | ⟨_, h⟩
  · exact h
  · rw [h] at hsp; exact absurd hsp (by simp)

theorem mem_dropWhile {p : Char → Bool} :
    ∀ (l : List Char) (c : Char), c ∈ l.dropWhile p → c ∈ l := by
  intro l
  induction l with
  | nil => intro c h; simp at h
  | cons c0 cs ih =>
    intro c h
    by_cases h0 : p c0
    · rw [List.dropWhile_cons_of_pos h0] at h
      exact List.mem_cons_of_mem _ (ih c h)
    · rw [List.dropWhile_cons_of_neg h0] at h
      exact h

theorem chain_dropWhile {p : Char → Bool} :
    ∀ (l : List Char), List.Chain' notBothSpace l →
      List.Chain' notBothSpace (l.dropWhile p) := by
  intro l
  induction l with
  | nil => intro h; simp
  | cons c0 cs ih =>
    intro h
    by_cases h0 : p c0
    · rw [List.dropWhile_cons_of_pos h0]
      exact ih h.tail
    · rw [List.dropWhile_cons_of_neg h0]
      exact h

theorem head_dropWhile {p : Char → Bool} :
    ∀ (l : List Char) (c : Char), (l.dropWhile p).head? = some c → p c = false := by
  intro l
  induction l with
  | nil => intro c h; simp at h
  | cons c0 cs ih =>
    intro c h
    by_cases h0 : p c0
    · rw [List.dropWhile_cons_of_pos h0] at h
      exact ih c h
    · rw [List.dropWhile_cons_of_neg h0] at h
      simp only [List.head?_cons, Option.some.injEq] at h
      subst h
      exact eq_false_of_ne_true h0

theorem dropWhile_eq_self_of_head {p : Char → Bool} (l : List Char)
    (h : ∀ c, l.head? = some c → p c = false) : l.dropWhile p = l := by
  cases l with
  | nil => rfl
  | cons c0 cs =>
    have : p c0 = false := h c0 rfl
    rw [List.dropWhile_cons_of_neg (by simp [this])]

theorem getLast_dropWhile {p : Char → Bool} :
    ∀ (l : List Char) (c : Char), (l.dropWhile p).getLast? = some c →
      l.getLast? = some c := by
  intro l
  induction l with
  | nil => intro c h; simp at h
  | cons c0 cs ih =>
    intro c h
    by_cases h0 : p c0
    · rw [List.dropWhile_cons_of_pos h0] at h
      have h2 := ih c h
      have hne : cs ≠ [] := by
        intro hnil
        rw [hnil] at h2
        simp at h2
      cases cs with
      | nil => exact absurd rfl hne
      | cons d t => rw [List.getLast?_cons_cons]; exact h2
    · rw [List.dropWhile_cons_of_neg h0] at h
      exact h

theorem mem_stripWS (l : List Char) (c : Char) (h : c ∈ stripWS l) : c ∈ l := by
  unfold stripWS at h
  rw [List.mem_reverse] at h
  have h1 := mem_dropWhile _ _ h
  rw [List.mem_reverse] at h1
  exact mem_dropWhile _ _ h1

theorem chain_stripWS (l : List Char) (h : List.Chain' notBothSpace l) :
    List.Chain' notBothSpace (stripWS l) := by
  unfold stripWS
  have hsymm : ∀ m : List Char, List.Chain' notBothSpace m →
      List.Chain' notBothSpace m.reverse := by
    intro m hm
    rw [List.chain'_reverse]
    exact hm.imp (fun a b hab => fun hcon => hab ⟨hcon.2, hcon.1⟩)
  exact hsymm _ (chain_dropWhile _ (hsymm _ (chain_dropWhile _ h)))

theorem head_stripWS (l : List Char) (c : Char)
    (h : (stripWS l).head? = some c) : pyIsSpace c = false := by
  unfold stripWS at h
  rw [List.head?_reverse] at h
  have h1 := getLast_dropWhile _ _ h
  rw [List.getLast?_reverse] at h1
  exact head_dropWhile _ _ h1

theorem getLast_stripWS (l : List Char) (c : Char)
    (h : (stripWS l).getLast? = some c) : pyIsSpace c = false := by
  unfold stripWS at h
  rw [List.getLast?_reverse] at h
  exact head_dropWhile _ _ h

theorem stripWS_eq_self (l : List Char)
    (hhead : ∀ c, l.head? = some c → pyIsSpace c = false)
    (hlast : ∀ c, l.getLast? = some c → pyIsSpace c = false) :
    stripWS l = l := by
  unfold stripWS
  rw [dropWhile_eq_self_of_head l hhead]
  rw [dropWhile_eq_self_of_head l.reverse
    (fun c hc => hlast c (by rw [List.head?_reverse] at hc; exact hc))]
  exact List.reverse_reverse l

theorem collapseAux_eq_self :
    ∀ (l : List Char),
      (∀ c ∈ l, pyIsSpace c = true → c = spaceChar) →
      List.Chain' notBothSpace l →
      collapseAux false l = l := by
  intro l
  induction l with
  | nil => intro _ _; rfl
  | cons c0 cs ih =>
    intro hsp hch
    have hcs : collapseAux false cs = cs :=
      ih (fun c hc => hsp c (List.mem_cons_of_mem _ hc)) hch.tail
    by_cases hc0 : pyIsSpace c0
    · have hc0' : c0 = spaceChar := hsp c0 (List.mem_cons_self _ _) hc0
      have hrw : collapseAux false (c0 :: cs) = spaceChar :: collapseAux true cs := by
        simp [collapseAux, hc0]
      rw [hrw, hc0']
      congr 1
      cases cs with
      | nil => rfl
      | cons d t =>
        have hd : pyIsSpace d = false := by
          have := (List.chain'_cons.mp hch).1
          by_contra hdt
          exact this ⟨hc0, by revert hdt; cases pyIsSpace d <;> simp⟩
        have ht : collapseAux false t = t := by
          have hrw2 : collapseAux false (d :: t) = d :: collapseAux false t := by
            simp [collapseAux, hd]
          rw [hrw2] at hcs
          exact (List.cons.injEq _ _ _ _ ▸ hcs).2
        simp [collapseAux, hd, ht]
    · have hrw : collapseAux false (c0 :: cs) = c0 :: collapseAux false cs := by
        simp [collapseAux, hc0]
      rw [hrw, hcs]

theorem mem_cleanChars (isSym : Char → Bool) (l : List Char) (c : Char)
    (h : c ∈ stripWS (collapseWS (l.filter (fun c => !isSym c)))) :
    c = spaceChar ∨ isSym c = false := by
  have h1 := mem_stripWS _ _ h
  unfold collapseWS at h1
  rcases mem_collapseAux false _ c h1 with h2 | ⟨h2, _⟩
  · exact Or.inl h2
  · right
    have h3 := (List.mem_filter.mp h2).2
    simpa using h3

theorem spaces_cleanChars (isSym : Char → Bool) (l : List Char) (c : Char)
    (h : c ∈ stripWS (collapseWS (l.filter (fun c => !isSym c))))
    (hsp : pyIsSpace c = true) : c = spaceChar := by
  have h1 := mem_stripWS _ _ h
  unfold collapseWS at h1
  exact spaces_collapseAux false _ c h1 hsp

theorem chain_cleanChars (isSym : Char → Bool) (l : List Char) :
    List.Chain' notBothSpace (stripWS (collapseWS (l.filter (fun c => !isSym c)))) :=
  chain_stripWS _ (chain_collapseAux _ false)

theorem cleanChars_fixpoint (isSym : Char → Bool) (hsym : isSym spaceChar = false)
    (z : List Char)
    (hmem : ∀ c ∈ z, c = spaceChar ∨ isSym c = false)
    (hspz : ∀ c ∈ z, pyIsSpace c = true → c = spaceChar)
    (hch : List.Chain' notBothSpace z)
    (hhead : ∀ c, z.head? = some c → pyIsSpace c = false)
    (hlast : ∀ c, z.getLast? = some c → pyIsSpace c = false) :
    stripWS (collapseWS (z.filter (fun c => !isSym c))) = z := by
  have hfil : z.filter (fun c => !isSym c) = z := by
    rw [List.filter_eq_self]
    intro a ha
    rcases hmem a ha with h | h
    · simp [h, hsym]
    · simp [h]
  rw [hfil]
  unfold collapseWS
  rw [collapseAux_eq_self z hspz hch]
  exact stripWS_eq_self z hhead hlast

/-- C8: the text normalizer `clean_text` is idempotent:
`clean_text (clean_text x) = clean_text x` for every input `x`, including
`None` (modelled as `none`) and the empty string.  The hypothesis
`isSym spaceChar = false` records the one fact used about the external
Unicode classifier: the ASCII space is not a symbol-category character
(its category is `Zs`). -/
theorem clean_text_idempotent (isSym : Char → Bool) (x : Option String)
    (hsym : isSym spaceChar = false) :
    clean_text isSym (some (clean_text isSym x)) = clean_text isSym x := by
  cases x with
  | none => simp [clean_text]
  | some s =>
    by_cases hs : s = ""
    · simp [clean_text, hs]
    · have hform : clean_text isSym (some s) =
          ⟨stripWS (collapseWS (s.data.filter (fun c => !isSym c)))⟩ := by
        simp [clean_text, hs]
      rw [hform]
      by_cases hznil : stripWS (collapseWS (s.data.filter (fun c => !isSym c))) = []
      · rw [hznil]
        have hempty : (⟨[]⟩ : String) = "" := rfl
        rw [hempty]
        simp [clean_text]
      · have hzs : (⟨stripWS (collapseWS (s.data.filter (fun c => !isSym c)))⟩ : String) ≠ "" := by
          intro hcon
          apply hznil
          have hd := congrArg String.data hcon
          simpa using hd
        have hstep : clean_text isSym
            (some ⟨stripWS (collapseWS (s.data.filter (fun c => !isSym c)))⟩) =
            ⟨stripWS (collapseWS ((stripWS (collapseWS (s.data.filter (fun c => !isSym c)))).filter
              (fun c => !isSym c)))⟩ := by
          simp only [clean_text]
          rw [if_neg hzs]
        rw [hstep]
        congr 1
        exact cleanChars_fixpoint isSym hsym _
          (fun c hc => mem_cleanChars isSym s.data c hc)
          (fun c hc => spaces_cleanChars isSym s.data c hc)
          (chain_cleanChars isSym s.data)
          (fun c hc => head_stripWS _ c hc)
          (fun c hc => getLast_stripWS _ c hc)

/-- Witness for `clean_text_idempotent` at a concrete symbol classifier and
a concrete string containing a whitespace run. -/
theorem clean_text_idempotent_witness :
    ((fun c => decide (c.toNat = 0x26A1)) spaceChar = false) ∧
    clean_text (fun c => decide (c.toNat = 0x26A1))
        (some (clean_text (fun c => decide (c.toNat = 0x26A1)) (some "a  b"))) =
      clean_text (fun c => decide (c.toNat = 0x26A1)) (some "a  b") :=
  ⟨by decide,
   clean_text_idempotent (fun c => decide (c.toNat = 0x26A1)) (some "a  b") (by decide)⟩

/-- C9: on every input the normalizer's output has no whitespace run longer
than one character (adjacent output characters are never both whitespace),
no leading and no trailing whitespace, every whitespace character that does
occur is the single ASCII space (so newlines are gone), and `None` or empty
input yields the empty string. -/
theorem clean_text_whitespace_normal (isSym : Char → Bool) (t : Option String) :
    List.Chain' notBothSpace (clean_text isSym t).data ∧
    (∀ c, (clean_text isSym t).data.head? = some c → pyIsSpace c = false) ∧
    (∀ c, (clean_text isSym t).data.getLast? = some c → pyIsSpace c = false) ∧
    (∀ c ∈ (clean_text isSym t).data, pyIsSpace c = true → c = spaceChar) ∧
    clean_text isSym none = "" ∧ clean_text isSym (some "") = "" := by
  have hbase : clean_text isSym none = "" ∧ clean_text isSym (some "") = "" := by
    constructor
    · rfl
    · simp [clean_text]
  cases t with
  | none =>
    refine ⟨?_, ?_, ?_, ?_, hbase⟩ <;> simp [clean_text]
  | some s =>
    by_cases hs : s = ""
    · subst hs
      refine ⟨?_, ?_, ?_, ?_, hbase⟩ <;> simp [clean_text]
    · have hform : clean_text isSym (some s) =
          ⟨stripWS (collapseWS (s.data.filter (fun c => !isSym c)))⟩ := by
        simp [clean_text, hs]
      rw [hform]
      refine ⟨chain_cleanChars isSym s.data,
        fun c hc => head_stripWS _ c hc,
        fun c hc => getLast_stripWS _ c hc,
        fun c hc hsp => spaces_cleanChars isSym s.data c hc hsp,
        hbase⟩

/-- Organization object nested in a challenge record of the listing API
response (`ch["organization"]` with fields `id`, `name`, `slug`). -/
structure Org where
  id : String
  name : String
  slug : String
deriving DecidableEq, Repr

/-- Industry object nested in a challenge record (`ind["title"]`). -/
structure Industry where
  title : String
deriving DecidableEq, Repr

/-- One parsed challenge (hackathon) record from a listing page.  Fields the
code accesses with `dict[...]`/`dict.get(...)` are `Option`s so that a
missing key is representable; `industries` models `ch.get("industries", [])`
with absence collapsed to the empty list. -/
structure Challenge where
  id : Option String
  name : Option String
  slug : Option String
  isClosed : Option Bool
  organization : Option Org
  industries : List Industry
deriving DecidableEq, Repr

/-- One parsed project record from the projects-by-challenge API response. -/
structure Project where
  id : Option String
  name : Option String
  description : Option String
deriving DecidableEq, Repr

/-- Outcome of one HTTP POST to the GraphQL endpoint: a 200 response with a
parseable body, a non-200 status, or a 200 response whose body fails JSON
extraction (`response.json()["data"][...]` raising). -/
inductive FetchResult (α : Type) where
  | ok : α → FetchResult α
  | httpError : Nat → FetchResult α
  | parseError : FetchResult α
deriving DecidableEq, Repr

/-- A Python exception that escapes `load_all_data`: the only uncaught
exception its body can raise in the modelled fragment is `KeyError` from a
`dict[...]` access, carrying the missing key. -/
inductive RunError where
  | keyError : String → RunError
deriving DecidableEq, Repr

/-- The `hackathon_data` payload dict built in `load_all_data`
(main.py lines 226–235). -/
structure HackathonData where
  external_id : String
  organization_id : String
  organization_name : String
  organization_slug : String
  slug : String
  name : String
  industries : List String
  processed : Bool
deriving DecidableEq, Repr

/-- A stored row of the `hackathons` table.  `rowId` is the DB-assigned
primary key `id`; `url` and `description` are set only by the detail phase
(`load_hackathons`) and are absent (`none`) after the listing phase. -/
structure HackathonRow where
  rowId : Nat
  external_id : String
  organization_id : String
  organization_name : String
  organization_slug : String
  slug : String
  name : String
  industries : List String
  processed : Bool
  url : Option String
  description : Option String
deriving DecidableEq, Repr

/-- A stored row of the `projects` table; its fields are exactly those of the
`project_data` payload (main.py lines 252–260). -/
structure ProjectRow where
  external_id : String
  hackathon_id : Nat
  title : String
  description : String
  tags : List String
  url : String
  processed : Bool
deriving DecidableEq, Repr

/-- The Supabase store: the two tables touched by the crawl plus the next
primary key the DB would assign to an inserted hackathon row. -/
structure Store where
  hackathons : List HackathonRow
  projects : List ProjectRow
  nextId : Nat
deriving DecidableEq, Repr

/-- Overwrite the non-key fields of an existing hackathon row with the
upsert payload, keeping the primary key, the (equal) unique key
`external_id`, and the columns absent from the payload (`url`,
`description`). -/
def applyHackathonData (d : HackathonData) (r : HackathonRow) : HackathonRow :=
  { r with organization_id := d.organization_id,
           organization_name := d.organization_name,
           organization_slug := d.organization_slug,
           slug := d.slug, name := d.name,
           industries := d.industries, processed := d.processed }

/-- Modelled from the spec: the store's `upsert(Record)` operation used by
`supabase.table("hackathons").upsert(..., on_conflict=["external_id"])`
(main.py lines 236–240).  The Supabase implementation is external to the
repository; per §4.2 of the spec it is insert-or-merge by the unique key
`external_id`, never producing duplicates, with last-write-wins on non-key
fields.  Returns the updated store and the row's primary key
(`result.data[0]["id"]`). -/
def upsertHackathon (s : Store) (d : HackathonData) : Store × Nat :=
  match s.hackathons.find? (fun r => decide (r.external_id = d.external_id)) with
  | some r =>
    let merged := s.hackathons.map
      (fun q => if q.external_id = d.external_id then applyHackathonData d q else q)
    ({ s with hackathons := merged }, r.rowId)
  | none =>
    ({ s with
        hackathons := s.hackathons ++
          [{ rowId := s.nextId, external_id := d.external_id,
             organization_id := d.organization_id,
             organization_name := d.organization_name,
             organization_slug := d.organization_slug,
             slug := d.slug, name := d.name, industries := d.industries,
             processed := d.processed, url := none, description := none }],
        nextId := s.nextId + 1 },
     s.nextId)

/-- Modelled from the spec: one record of the batched
`supabase.table("projects").upsert(project_records, on_conflict=["external_id"])`
(main.py lines 263–266), insert-or-merge by `external_id`; the payload
carries every column, so a merge replaces the whole row. -/
def upsertProject (s : Store) (d : ProjectRow) : Store :=
  if s.projects.any (fun r => decide (r.external_id = d.external_id)) then
    let merged := s.projects.map
      (fun q => if q.external_id = d.external_id then d else q)
    { s with projects := merged }
  else
    { s with projects := s.projects ++ [d] }

/-- The batched projects upsert, record by record in batch order. -/
def upsertProjects (s : Store) (ds : List ProjectRow) : Store :=
  ds.foldl upsertProject s

/-- Embedding of `get_existing_hackathon_ids` (main.py lines 196–203): the
`external_id` column of every stored hackathon row, regardless of its
`processed` state.  (Python builds a set; only membership is ever used.) -/
def get_existing_hackathon_ids (s : Store) : List String :=
  s.hackathons.map (fun r => r.external_id)

/-- Embedding of `fetch_challenges_page` (main.py lines 97–163) over an
abstract transport `capi`: a non-200 status is logged and yields `[]`
(lines 153–157), a JSON extraction failure is logged and yields `[]`
(lines 159–163), and a 200 response yields its parsed challenge list. -/
def fetch_challenges_page (capi : Nat → FetchResult (List Challenge))
    (page : Nat) : List Challenge :=
  match capi page with
  | .ok cs => cs
  | .httpError _ => []
  | .parseError => []

/-- Embedding of `fetch_projects_for_challenge` (main.py lines 166–193):
same failure shape as `fetch_challenges_page`. -/
def fetch_projects_for_challenge (papi : String → FetchResult (List Project))
    (cid : String) : List Project :=
  match papi cid with
  | .ok ps => ps
  | .httpError _ => []
  | .parseError => []

/-- A Python `for` loop whose body can raise: thread the store through the
body, stopping with the exception if one is raised. -/
def foldE {α : Type} (step : Store → α → Except RunError Store) :
    Store → List α → Except RunError Store
  | s, [] => .ok s
  | s, x :: xs =>
    match step s x with
    | .error e => .error e
    | .ok s1 => foldE step s1 xs

/-- A Python list comprehension whose body can raise. -/
def mapE {α β : Type} (f : α → Except RunError β) :
    List α → Except RunError (List β)
  | [] => .ok []
  | x :: xs =>
    match f x with
    | .error e => .error e
    | .ok y =>
      match mapE f xs with
      | .error e => .error e
      | .ok ys => .ok (y :: ys)

/-- A `dict[key]` access: raises `KeyError(key)` when the key is absent. -/
def getKey {α : Type} (key : String) : Option α → Except RunError α
  | some v => .ok v
  | none => .error (.keyError key)

/-- The `project_data` dict built for one project `p` (main.py lines
252–260): `p["id"]` raises on a missing id, `p.get("name", "")` and
`p.get("description", "")` default to `""`. -/
def buildProjectRecord (isSym : Char → Bool) (hackathon_id : Nat)
    (p : Project) : Except RunError ProjectRow :=
  match getKey "id" p.id with
  | .error e => .error e
  | .ok pid =>
    .ok { external_id := pid, hackathon_id := hackathon_id,
          title := clean_text isSym (some (p.name.getD "")),
          description := clean_text isSym (some (p.description.getD "")),
          tags := [],
          url := "https://taikai.network/project/" ++ pid,
          processed := false }

/-- The body of the inner `for ch in challenges` loop of `load_all_data`
(main.py lines 215–267) for one challenge `ch`, over the projects transport
`papi` and the `stored_ids` snapshot taken once before the page loop:

* `if not ch.get("isClosed", False): continue` — skip non-closed records;
* `if ch["id"] in stored_ids: continue` — `ch["id"]` raises `KeyError` on a
  missing id, and any already-stored id is skipped outright;
* otherwise build `hackathon_data` (raising `KeyError("organization")` if
  `ch["organization"]` is absent), upsert it, fetch the challenge's
  projects, build `project_records`, and batch-upsert them when the list is
  non-empty (`if project_records:`). -/
def processChallenge (isSym : Char → Bool)
    (papi : String → FetchResult (List Project)) (stored : List String)
    (s : Store) (ch : Challenge) : Except RunError Store :=
  if ch.isClosed.getD false = false then .ok s
  else
    match getKey "id" ch.id with
    | .error e => .error e
    | .ok chId =>
      if chId ∈ stored then .ok s
      else
        match getKey "organization" ch.organization with
        | .error e => .error e
        | .ok org =>
          let hd : HackathonData :=
            { external_id := chId,
              organization_id := org.id, organization_name := org.name,
              organization_slug := org.slug,
              slug := ch.slug.getD "",
              name := clean_text isSym (some (ch.name.getD "")),
              industries := ch.industries.map (fun ind => ind.title),
              processed := false }
          let upserted := upsertHackathon s hd
          let projects := fetch_projects_for_challenge papi chId
          match mapE (buildProjectRecord isSym upserted.2) projects with
          | .error e => .error e
          | .ok project_records =>
            if project_records = [] then .ok upserted.1
            else .ok (upsertProjects upserted.1 project_records)

/-- The body of the outer `for page in range(20)` loop of `load_all_data`
(main.py lines 210–267): fetch one listing page; `if not challenges:
continue` skips an empty (or failed) page, otherwise every challenge on the
page is processed in order. -/
def processPage (isSym : Char → Bool) (capi : Nat → FetchResult (List Challenge))
    (papi : String → FetchResult (List Project)) (stored : List String)
    (s : Store) (page : Nat) : Except RunError Store :=
  let challenges := fetch_challenges_page capi page
  if challenges = [] then .ok s
  else foldE (processChallenge isSym papi stored) s challenges

/-- Embedding of `load_all_data` (main.py lines 206–267): snapshot the
stored hackathon ids once, then iterate pages `0..19` (`range(20)`).
The result is the final store, or the uncaught exception that aborted the
run.  (The hard-coded `cookies` string only feeds HTTP headers and is not
modelled.) -/
def load_all_data (isSym : Char → Bool)
    (capi : Nat → FetchResult (List Challenge))
    (papi : String → FetchResult (List Project))
    (s0 : Store) : Except RunError Store :=
  foldE (processPage isSym capi papi (get_existing_hackathon_ids s0)) s0
    (List.range 20)

/-- The `base_url` of main.py line 38. -/
def base_url : String := "https://taikai.network"

/-- The per-row update of `load_hackathons` (main.py lines 305–312):
`update({"url": ..., "description": ..., "processed": True}).eq("id", rid)`
— set the three columns on every row whose primary key equals `rid`. -/
def updateHackathonRow (url description : String) (rid : Nat)
    (r : HackathonRow) : HackathonRow :=
  if r.rowId = rid then
    { r with url := some url, description := some description, processed := true }
  else r

/-- The body of the `for h in hackathons` loop of `load_hackathons`
(main.py lines 285–312) for one fetched pending row `h`:

* `if not slug: continue` — a missing/empty slug is logged and the row is
  left untouched (the row's stored slug is a string; the empty string is
  the falsy case);
* otherwise build the hackathon URL, scrape the overview page (`web`
  returns the text of the `html-editor-body` div if present), clean it
  (`""` when the div is absent), and update the row. -/
def process_pending_hackathon (isSym : Char → Bool)
    (web : String → Option String) (s : Store) (h : HackathonRow) : Store :=
  if h.slug = "" then s
  else
    let hackathon_url := base_url ++ "/" ++ h.organization_slug ++ "/hackathons/" ++ h.slug
    let description :=
      match web hackathon_url with
      | some body => clean_text isSym (some body)
      | none => ""
    { s with hackathons :=
        s.hackathons.map (updateHackathonRow hackathon_url description h.rowId) }

/-- Embedding of `load_hackathons` (main.py lines 270–312): fetch the rows
with `processed = False` once, then process each in order, scraping with
the abstract browser `web` and updating the store. -/
def load_hackathons (isSym : Char → Bool) (web : String → Option String)
    (s : Store) : Store :=
  (s.hackathons.filter (fun h => h.processed == false)).foldl
    (process_pending_hackathon isSym web) s

theorem foldE_cons_ok {α : Type} (step : Store → α → Except RunError Store)
    (s s1 : Store) (x : α) (xs : List α) (h : step s x = .ok s1) :
    foldE step s (x :: xs) = foldE step s1 xs := by
  have hstep : foldE step s (x :: xs) =
      match step s x with
      | .error e => .error e
      | .ok s2 => foldE step s2 xs := rfl
  rw [hstep, h]

theorem foldE_cons_error {α : Type} (step : Store → α → Except RunError Store)
    (s : Store) (x : α) (xs : List α) (e : RunError) (h : step s x = .error e) :
    foldE step s (x :: xs) = .error e := by
  have hstep : foldE step s (x :: xs) =
      match step s x with
      | .error e => .error e
      | .ok s2 => foldE step s2 xs := rfl
  rw [hstep, h]

theorem foldE_ok_inv {α : Type} (step : Store → α → Except RunError Store)
    (P : Store → Prop) :
    ∀ (xs : List α) (s s1 : Store),
      (∀ t x t1, x ∈ xs → P t → step t x = .ok t1 → P t1) →
      P s → foldE step s xs = .ok s1 → P s1 := by
  intro xs
  induction xs with
  | nil =>
    intro s s1 _ hP hrun
    unfold foldE at hrun
    cases hrun
    exact hP
  | cons x xs ih =>
    intro s s1 hstep hP hrun
    unfold foldE at hrun
    cases hx : step s x with
    | error e => rw [hx] at hrun; cases hrun
    | ok t =>
      rw [hx] at hrun
      exact ih t s1
        (fun u y u1 hy => hstep u y u1 (List.mem_cons_of_mem _ hy))
        (hstep s x t (List.mem_cons_self _ _) hP hx) hrun

theorem foldE_congr {α : Type} (step step₂ : Store → α → Except RunError Store) :
    ∀ (xs : List α) (s : Store), (∀ t x, x ∈ xs → step t x = step₂ t x) →
      foldE step s xs = foldE step₂ s xs := by
  intro xs
  induction xs with
  | nil => intro s _; rfl
  | cons x xs ih =>
    intro s h
    unfold foldE
    rw [h s x (List.mem_cons_self _ _)]
    cases step₂ s x with
    | error e => rfl
    | ok t => exact ih t (fun u y hy => h u y (List.mem_cons_of_mem _ hy))

theorem foldE_skip {α : Type} (step : Store → α → Except RunError Store) :
    ∀ (xs : List α) (s : Store), (∀ x ∈ xs, step s x = .ok s) →
      foldE step s xs = .ok s := by
  intro xs
  induction xs with
  | nil => intro s _; rfl
  | cons x xs ih =>
    intro s h
    rw [foldE_cons_ok step s s x xs (h x (List.mem_cons_self _ _))]
    exact ih s (fun y hy => h y (List.mem_cons_of_mem _ hy))

theorem external_id_applyHackathonData (d : HackathonData) (r : HackathonRow) :
    (applyHackathonData d r).external_id = r.external_id := rfl

theorem ids_upsertHackathon (s : Store) (d : HackathonData) (eid : String)
    (h1 : eid ∉ get_existing_hackathon_ids s) (h2 : eid ≠ d.external_id) :
    eid ∉ get_existing_hackathon_ids (upsertHackathon s d).1 := by
  unfold get_existing_hackathon_ids at *
  unfold upsertHackathon
  cases hf : s.hackathons.find? (fun r => decide (r.external_id = d.external_id)) with
  | some r =>
    simp only
    intro hmem
    apply h1
    rcases List.mem_map.mp hmem with ⟨q0, hq0, hq0e⟩
    rcases List.mem_map.mp hq0 with ⟨q, hq, hqe⟩
    subst hqe
    apply List.mem_map.mpr
    refine ⟨q, hq, ?_⟩
    by_cases hcase : q.external_id = d.external_id
    · rw [if_pos hcase] at hq0e
      rw [external_id_applyHackathonData] at hq0e
      exact hq0e
    · rw [if_neg hcase] at hq0e
      exact hq0e
  | none =>
    simp only
    intro hmem
    rw [List.map_append, List.mem_append] at hmem
    rcases hmem with hmem | hmem
    · exact h1 hmem
    · simp only [List.map_cons, List.map_nil, List.mem_singleton] at hmem
      exact h2 hmem

theorem hackathons_upsertProject (s : Store) (d : ProjectRow) :
    (upsertProject s d).hackathons = s.hackathons := by
  unfold upsertProject
  split <;> rfl

theorem hackathons_upsertProjects (s : Store) (ds : List ProjectRow) :
    (upsertProjects s ds).hackathons = s.hackathons := by
  unfold upsertProjects
  induction ds generalizing s with
  | nil => rfl
  | cons d ds ih =>
    rw [List.foldl_cons, ih (upsertProject s d), hackathons_upsertProject]

theorem getKey_ok {α : Type} (k : String) (o : Option α) (v : α)
    (h : getKey k o = .ok v) : o = some v := by
  cases o with
  | none => simp [getKey] at h
  | some w =>
    simp only [getKey, Except.ok.injEq] at h
    rw [h]

theorem processChallenge_preserves_absent (isSym : Char → Bool)
    (papi : String → FetchResult (List Project)) (stored : List String)
    (s : Store) (ch : Challenge) (s1 : Store) (eid : String)
    (hch : ch.id = some eid → ch.isClosed.getD false = false)
    (hs : eid ∉ get_existing_hackathon_ids s)
    (hok : processChallenge isSym papi stored s ch = .ok s1) :
    eid ∉ get_existing_hackathon_ids s1 := by
  unfold processChallenge at hok
  split at hok
  · cases hok; exact hs
  · rename_i hcl
    split at hok
    · cases hok
    · rename_i chId hid
      have hid' : ch.id = some chId := getKey_ok _ _ _ hid
      split at hok
      · cases hok; exact hs
      · split at hok
        · cases hok
        · rename_i org horg
          have hne : eid ≠ chId := by
            intro he
            subst he
            exact hcl (hch hid')
          dsimp only [] at hok
          split at hok
          · cases hok
          · rename_i recs hrecs
            split at hok
            · cases hok
              exact ids_upsertHackathon s _ eid hs hne
            · cases hok
              unfold get_existing_hackathon_ids
              rw [hackathons_upsertProjects]
              exact ids_upsertHackathon s _ eid hs hne

/-- A symbol classifier under which no character is symbolic; used to
instantiate concrete runs. -/
def noSym : Char → Bool := fun _ => false

/-- A projects transport answering every challenge with zero projects. -/
def papiEmpty : String → FetchResult (List Project) := fun _ => .ok []

/-- The empty store. -/
def store0 : Store := { hackathons := [], projects := [], nextId := 0 }

/-- C6: a parent returned by the listing is created in the store only when
its eligibility flag `isClosed` is `true`.  Contrapositively: if every
listing record carrying external id `eid` has `isClosed` false or absent
(`ch.get("isClosed", False)` falsy) and no row with `eid` pre-exists, then
no run of `load_all_data` ever creates a row with external id `eid`. -/
theorem ineligible_parent_never_created (isSym : Char → Bool)
    (capi : Nat → FetchResult (List Challenge))
    (papi : String → FetchResult (List Project))
    (s0 : Store) (eid : String) (s1 : Store)
    (h0 : eid ∉ get_existing_hackathon_ids s0)
    (hsrc : ∀ page ch, ch ∈ fetch_challenges_page capi page →
      ch.id = some eid → ch.isClosed.getD false = false)
    (hrun : load_all_data isSym capi papi s0 = .ok s1) :
    eid ∉ get_existing_hackathon_ids s1 := by
  unfold load_all_data at hrun
  refine foldE_ok_inv _ (fun t => eid ∉ get_existing_hackathon_ids t)
    (List.range 20) s0 s1 ?_ h0 hrun
  intro t page t1 _ hP hstep
  unfold processPage at hstep
  dsimp only [] at hstep
  split at hstep
  · cases hstep; exact hP
  · exact foldE_ok_inv _ (fun u => eid ∉ get_existing_hackathon_ids u)
      (fetch_challenges_page capi page) t t1
      (fun u chx u1 hchx hPu hoku =>
        processChallenge_preserves_absent isSym papi _ u chx u1 eid
          (fun hidx => hsrc page chx hchx hidx) hPu hoku)
      hP hstep

/-- The eligible (closed) challenge of the C6 witness scenario. -/
def chC6closed : Challenge :=
  { id := some "h1", name := some "Hack", slug := some "hack",
    isClosed := some true,
    organization := some { id := "o1", name := "Org", slug := "org" },
    industries := [] }

/-- The ineligible (not closed) challenge of the C6 witness scenario. -/
def chC6open : Challenge :=
  { id := some "h2", name := some "Open Hack", slug := some "open",
    isClosed := some false,
    organization := some { id := "o1", name := "Org", slug := "org" },
    industries := [] }

/-- Listing transport of the C6 witness: one page with a closed and a
non-closed parent. -/
def capiC6 : Nat → FetchResult (List Challenge) :=
  fun page => if page = 0 then .ok [chC6closed, chC6open] else .ok []

/-- The store produced by running `load_all_data` on the C6 scenario: only
the closed parent `h1` was created. -/
def storeC6 : Store :=
  { hackathons :=
      [{ rowId := 0, external_id := "h1", organization_id := "o1",
         organization_name := "Org", organization_slug := "org",
         slug := "hack", name := "Hack", industries := [],
         processed := false, url := none, description := none }],
    projects := [], nextId := 1 }

/-- Witness for `ineligible_parent_never_created`: in the two-parent
scenario `[{id: h1, closed}, {id: h2, open}]` the run creates only `h1`;
`h2` is never created. -/
theorem ineligible_parent_never_created_witness :
    "h2" ∉ get_existing_hackathon_ids storeC6 :=
  ineligible_parent_never_created noSym capiC6 papiEmpty store0 "h2" storeC6
    (by decide)
    (by
      intro page ch hmem hid
      by_cases hp : page = 0
      · subst hp
        have hfetch : fetch_challenges_page capiC6 0 = [chC6closed, chC6open] := rfl
        rw [hfetch] at hmem
        rcases List.mem_cons.mp hmem with h | h
        · subst h
          exact absurd hid (by decide)
        · rw [List.mem_singleton] at h
          subst h
          decide
      · have hfetch : fetch_challenges_page capiC6 page = [] := by
          unfold fetch_challenges_page capiC6
          rw [if_neg hp]
        rw [hfetch] at hmem
        exact absurd hmem (List.not_mem_nil ch))
    rfl

theorem key_preserved_merge (d : HackathonData) (q : HackathonRow) :
    ((if q.external_id = d.external_id then applyHackathonData d q else q) :
      HackathonRow).external_id = q.external_id := by
  split
  · rfl
  · rfl

theorem filter_key_map (l : List HackathonRow) (k : String)
    (f : HackathonRow → HackathonRow)
    (hf : ∀ r, (f r).external_id = r.external_id) :
    (l.map f).filter (fun r => decide (r.external_id = k)) =
      (l.filter (fun r => decide (r.external_id = k))).map f := by
  induction l with
  | nil => rfl
  | cons r l ih =>
    by_cases hr : r.external_id = k
    · rw [List.map_cons, List.filter_cons, List.filter_cons]
      rw [if_pos (by simp [hf r, hr]), if_pos (by simp [hr])]
      rw [List.map_cons, ih]
    · rw [List.map_cons, List.filter_cons, List.filter_cons]
      rw [if_neg (by simp [hf r, hr]), if_neg (by simp [hr])]
      exact ih

theorem filter_key_upsertHackathon (s : Store) (d : HackathonData)
    (huniq : (s.hackathons.filter
      (fun r => decide (r.external_id = d.external_id))).length ≤ 1) :
    ((upsertHackathon s d).1.hackathons.filter
      (fun r => decide (r.external_id = d.external_id))).length = 1 := by
  unfold upsertHackathon
  cases hf : s.hackathons.find? (fun r => decide (r.external_id = d.external_id)) with
  | none =>
    dsimp only []
    have hnil : s.hackathons.filter
        (fun r => decide (r.external_id = d.external_id)) = [] := by
      rw [List.filter_eq_nil_iff]
      intro a ha
      have hna := List.find?_eq_none.mp hf a ha
      simpa using hna
    rw [List.filter_append, hnil]
    simp
  | some r =>
    dsimp only []
    rw [filter_key_map s.hackathons d.external_id _ (key_preserved_merge d)]
    rw [List.length_map]
    have hp := List.find?_some
      (p := fun q : HackathonRow => decide (q.external_id = d.external_id)) hf
    have hmemf : r ∈ s.hackathons.filter
        (fun q => decide (q.external_id = d.external_id)) :=
      List.mem_filter.mpr ⟨List.mem_of_find?_eq_some hf, hp⟩
    have hpos := List.length_pos_of_mem hmemf
    omega

theorem fields_upsertHackathon (s : Store) (d : HackathonData)
    (r : HackathonRow) (hr : r ∈ (upsertHackathon s d).1.hackathons)
    (hkey : r.external_id = d.external_id) :
    r.organization_id = d.organization_id ∧
    r.organization_name = d.organization_name ∧
    r.organization_slug = d.organization_slug ∧
    r.slug = d.slug ∧ r.name = d.name ∧
    r.industries = d.industries ∧ r.processed = d.processed := by
  unfold upsertHackathon at hr
  cases hf : s.hackathons.find? (fun q => decide (q.external_id = d.external_id)) with
  | none =>
    rw [hf] at hr
    dsimp only [] at hr
    rw [List.mem_append] at hr
    rcases hr with hr | hr
    · have hna := List.find?_eq_none.mp hf r hr
      simp [hkey] at hna
    · rw [List.mem_singleton] at hr
      subst hr
      exact ⟨rfl, rfl, rfl, rfl, rfl, rfl, rfl⟩
  | some q0 =>
    rw [hf] at hr
    dsimp only [] at hr
    rcases List.mem_map.mp hr with ⟨q, _, hqe⟩
    by_cases hcase : q.external_id = d.external_id
    · rw [if_pos hcase] at hqe
      subst hqe
      exact ⟨rfl, rfl, rfl, rfl, rfl, rfl, rfl⟩
    · rw [if_neg hcase] at hqe
      subst hqe
      exact absurd hkey hcase

/-- C7: upserting the same parent `external_id` twice leaves exactly one
stored row with that key, and that row carries the non-key field values of
the second (latest) payload.  The store is assumed to satisfy the unique-key
invariant beforehand (at most one row with the key).  The upsert operation
itself is modelled from the spec, §4.2, since the Supabase implementation
lives outside the repository; `load_all_data` invokes it with
`on_conflict=["external_id"]`. -/
theorem upsert_twice_single_row (s : Store) (d1 d2 : HackathonData)
    (hkeys : d1.external_id = d2.external_id)
    (huniq : (s.hackathons.filter
      (fun r => decide (r.external_id = d2.external_id))).length ≤ 1) :
    (((upsertHackathon (upsertHackathon s d1).1 d2).1.hackathons.filter
      (fun r => decide (r.external_id = d2.external_id))).length = 1) ∧
    ∀ r ∈ (upsertHackathon (upsertHackathon s d1).1 d2).1.hackathons,
      r.external_id = d2.external_id →
        r.organization_id = d2.organization_id ∧
        r.organization_name = d2.organization_name ∧
        r.organization_slug = d2.organization_slug ∧
        r.slug = d2.slug ∧ r.name = d2.name ∧
        r.industries = d2.industries ∧ r.processed = d2.processed := by
  constructor
  · have huniq1 : (s.hackathons.filter
        (fun r => decide (r.external_id = d1.external_id))).length ≤ 1 := by
      rw [hkeys]
      exact huniq
    have h1 := filter_key_upsertHackathon s d1 huniq1
    rw [hkeys] at h1
    exact filter_key_upsertHackathon (upsertHackathon s d1).1 d2 (le_of_eq h1)
  · intro r hr hkey
    exact fields_upsertHackathon (upsertHackathon s d1).1 d2 r hr hkey

/-- First upsert payload of the C7 witness. -/
def dC7first : HackathonData :=
  { external_id := "h1", organization_id := "o", organization_name := "O",
    organization_slug := "o", slug := "s1", name := "first",
    industries := [], processed := false }

/-- Second upsert payload of the C7 witness: same key, different non-key
fields. -/
def dC7second : HackathonData :=
  { external_id := "h1", organization_id := "o", organization_name := "O",
    organization_slug := "o", slug := "s2", name := "second",
    industries := ["ai"], processed := true }

/-- Witness for `upsert_twice_single_row`: two payloads with key `"h1"` and
different non-key fields upserted into the empty store leave exactly one
row with that key. -/
theorem upsert_twice_single_row_witness :
    (((upsertHackathon (upsertHackathon store0 dC7first).1 dC7second).1.hackathons.filter
      (fun r => decide (r.external_id = dC7second.external_id))).length = 1) :=
  (upsert_twice_single_row store0 dC7first dC7second rfl (by decide)).1

theorem processChallenge_skip (isSym : Char → Bool)
    (papi : String → FetchResult (List Project)) (stored : List String)
    (s : Store) (ch : Challenge)
    (h : ch.isClosed.getD false = true → ∃ i, ch.id = some i ∧ i ∈ stored) :
    processChallenge isSym papi stored s ch = .ok s := by
  unfold processChallenge
  by_cases hcl : ch.isClosed.getD false = false
  · rw [if_pos hcl]
  · rw [if_neg hcl]
    have hcl' : ch.isClosed.getD false = true := by
      cases hb : ch.isClosed.getD false
      · exact absurd hb hcl
      · rfl
    rcases h hcl' with ⟨i, hid, hst⟩
    rw [hid]
    dsimp only [getKey]
    rw [if_pos hst]

/-- C1 (amended): the crawl performs no reconciliation.  A parent observed
in a listing page whose external id is already in the store — in any state,
`processed` true or false — is skipped outright (`if ch["id"] in
stored_ids: continue`): when every eligible listing record is already
stored, the whole run leaves the store completely unchanged; in particular
no ChildRecord is deleted and no detail or child enumeration is re-run. -/
theorem stored_parent_skipped_entirely (isSym : Char → Bool)
    (capi : Nat → FetchResult (List Challenge))
    (papi : String → FetchResult (List Project)) (s0 : Store)
    (hsrc : ∀ page ch, page < 20 → ch ∈ fetch_challenges_page capi page →
      ch.isClosed.getD false = true →
        ∃ i, ch.id = some i ∧ i ∈ get_existing_hackathon_ids s0) :
    load_all_data isSym capi papi s0 = .ok s0 := by
  unfold load_all_data
  apply foldE_skip
  intro page hpage
  unfold processPage
  dsimp only []
  split
  · rfl
  · apply foldE_skip
    intro ch hch
    exact processChallenge_skip isSym papi _ s0 ch
      (fun hcl => hsrc page ch (List.mem_range.mp hpage) hch hcl)

/-- The pre-existing parent row of the C1 scenario: stored with
`processed = false`, i.e. a parent interrupted before completion (state
DISCOVERED/DETAILED in the spec's terms). -/
def rowC1 : HackathonRow :=
  { rowId := 1, external_id := "h1", organization_id := "o1",
    organization_name := "Org", organization_slug := "org", slug := "h1",
    name := "H1", industries := [], processed := false, url := none,
    description := none }

/-- A stale child row of that parent, left over from the interrupted run. -/
def staleChild : ProjectRow :=
  { external_id := "p_old", hackathon_id := 1, title := "Old",
    description := "", tags := [],
    url := "https://taikai.network/project/p_old", processed := false }

/-- The C1 store: the interrupted parent and its stale child. -/
def storeC1 : Store :=
  { hackathons := [rowC1], projects := [staleChild], nextId := 2 }

/-- The same parent as observed again (closed) on the next run's listing. -/
def chC1 : Challenge :=
  { id := some "h1", name := some "H1", slug := some "h1",
    isClosed := some true,
    organization := some { id := "o1", name := "Org", slug := "org" },
    industries := [] }

/-- Listing transport of the C1 scenario: page 0 re-lists the parent. -/
def capiC1 : Nat → FetchResult (List Challenge) :=
  fun page => if page = 0 then .ok [chC1] else .ok []

/-- Projects transport of the C1 scenario: the source now exposes a fresh
child `p2` for the parent, which a reconciling re-enumeration would fetch. -/
def papiC1 : String → FetchResult (List Project) :=
  fun _ => .ok [{ id := some "p2", name := some "New", description := some "d" }]

/-- Counterexample to C1 as stated: the parent `h1` is found in the store in
a non-terminal state (`processed = false`), yet a re-run deletes nothing and
re-enumerates nothing — the run returns the store unchanged, the stale child
survives, and the fresh child `p2` offered by the source is never created. -/
theorem reconciliation_counterexample :
    load_all_data noSym capiC1 papiC1 storeC1 = .ok storeC1 ∧
    rowC1.processed = false ∧
    staleChild ∈ storeC1.projects ∧
    storeC1.projects.map (fun r => r.external_id) = ["p_old"] :=
  ⟨rfl, rfl, by decide, rfl⟩

/-- Witness for `stored_parent_skipped_entirely` at the C1 scenario. -/
theorem stored_parent_skipped_entirely_witness :
    load_all_data noSym capiC1 papiC1 storeC1 = .ok storeC1 :=
  stored_parent_skipped_entirely noSym capiC1 papiC1 storeC1
    (by
      intro page ch _ hmem _
      by_cases hp : page = 0
      · subst hp
        have hfetch : fetch_challenges_page capiC1 0 = [chC1] := rfl
        rw [hfetch] at hmem
        rw [List.mem_singleton] at hmem
        subst hmem
        exact ⟨"h1", rfl, by decide⟩
      · have hfetch : fetch_challenges_page capiC1 page = [] := by
          unfold fetch_challenges_page capiC1
          rw [if_neg hp]
        rw [hfetch] at hmem
        exact absurd hmem (List.not_mem_nil ch))

theorem processChallenge_missing_id (isSym : Char → Bool)
    (papi : String → FetchResult (List Project)) (stored : List String)
    (s : Store) (ch : Challenge)
    (hclosed : ch.isClosed.getD false = true) (hid : ch.id = none) :
    processChallenge isSym papi stored s ch = .error (.keyError "id") := by
  unfold processChallenge
  rw [if_neg (by rw [hclosed]; simp)]
  rw [hid]
  rfl

/-- C5 (amended): a malformed listing record is not skipped — a record that
passes the `isClosed` filter but lacks its `"id"` key makes `ch["id"]`
raise `KeyError("id")`, and since `load_all_data` has no exception handler
around the loop body, the uncaught exception aborts the entire run; the
remaining records (and pages) are never processed. -/
theorem malformed_record_aborts_run (isSym : Char → Bool)
    (capi : Nat → FetchResult (List Challenge))
    (papi : String → FetchResult (List Project)) (s0 : Store)
    (ch : Challenge) (cs : List Challenge)
    (h0 : fetch_challenges_page capi 0 = ch :: cs)
    (hclosed : ch.isClosed.getD false = true)
    (hid : ch.id = none) :
    load_all_data isSym capi papi s0 = .error (.keyError "id") := by
  unfold load_all_data
  have h20 : List.range 20 =
      0 :: [1, 2, 3, 4, 5, 6, 7, 8, 9, 10, 11, 12, 13, 14, 15, 16, 17, 18, 19] := by
    decide
  rw [h20]
  apply foldE_cons_error
  unfold processPage
  dsimp only []
  rw [h0]
  rw [if_neg (List.cons_ne_nil ch cs)]
  apply foldE_cons_error
  exact processChallenge_missing_id isSym papi _ s0 ch hclosed hid

/-- The malformed record of the C5 scenario: closed, but no `"id"` key. -/
def chC5bad : Challenge :=
  { id := none, name := some "Bad", slug := none, isClosed := some true,
    organization := none, industries := [] }

/-- A well-formed closed record listed right after the malformed one. -/
def chC5good : Challenge :=
  { id := some "g1", name := some "Good", slug := some "good",
    isClosed := some true,
    organization := some { id := "o1", name := "Org", slug := "org" },
    industries := [] }

/-- Listing transport of the C5 scenario. -/
def capiC5 : Nat → FetchResult (List Challenge) :=
  fun page => if page = 0 then .ok [chC5bad, chC5good] else .ok []

/-- Counterexample to C5 as stated: the listing contains one record missing
its identity field; instead of skipping that record and continuing, the run
aborts with `KeyError("id")` — the well-formed record `g1` listed after it
is never ingested (the run produces no final store at all). -/
theorem malformed_record_counterexample :
    chC5bad ∈ fetch_challenges_page capiC5 0 ∧ chC5bad.id = none ∧
    load_all_data noSym capiC5 papiEmpty store0 = .error (RunError.keyError "id") :=
  ⟨by decide, rfl, rfl⟩

/-- Witness for `malformed_record_aborts_run` at the C5 scenario. -/
theorem malformed_record_aborts_run_witness :
    load_all_data noSym capiC5 papiEmpty store0 = .error (RunError.keyError "id") :=
  malformed_record_aborts_run noSym capiC5 papiEmpty store0 chC5bad [chC5good]
    rfl rfl rfl

/-- C3 (amended): the listing traversal is a fixed `for page in range(20)`
loop with no exhaustion detection: the run's outcome depends only on the
source's responses for pages 0–19 (pages ≥ 20 are never requested), and an
empty page is skipped with `continue` rather than terminating the
traversal (the counterexample shows ingestion resuming after two
consecutive empty pages). -/
theorem traversal_fixed_twenty_pages (isSym : Char → Bool)
    (capi capi' : Nat → FetchResult (List Challenge))
    (papi : String → FetchResult (List Project)) (s0 : Store)
    (h : ∀ p, p < 20 → capi p = capi' p) :
    load_all_data isSym capi papi s0 = load_all_data isSym capi' papi s0 := by
  unfold load_all_data
  apply foldE_congr
  intro t page hpage
  unfold processPage
  dsimp only []
  have hf : fetch_challenges_page capi page = fetch_challenges_page capi' page := by
    unfold fetch_challenges_page
    rw [h page (List.mem_range.mp hpage)]
  rw [hf]

/-- The parent listed on page 2 of the C3 scenario. -/
def chC3 : Challenge :=
  { id := some "h3", name := some "H3", slug := some "h3",
    isClosed := some true,
    organization := some { id := "o1", name := "Org", slug := "org" },
    industries := [] }

/-- Listing transport of the C3 scenario: pages 0 and 1 are empty, page 2
lists a closed parent, all later pages are empty. -/
def capiC3 : Nat → FetchResult (List Challenge) :=
  fun page => if page = 2 then .ok [chC3] else .ok []

/-- The store produced by running `load_all_data` on the C3 scenario. -/
def storeC3 : Store :=
  { hackathons :=
      [{ rowId := 0, external_id := "h3", organization_id := "o1",
         organization_name := "Org", organization_slug := "org",
         slug := "h3", name := "H3", industries := [],
         processed := false, url := none, description := none }],
    projects := [], nextId := 1 }

/-- Counterexample to C3 as stated: pages 0 and 1 are both empty — more
consecutive empty pages than the claimed default tolerance of 1 — yet the
traversal does not terminate: the parent listed on page 2 is still
ingested. -/
theorem exhaustion_counterexample :
    fetch_challenges_page capiC3 0 = [] ∧
    fetch_challenges_page capiC3 1 = [] ∧
    load_all_data noSym capiC3 papiEmpty store0 = .ok storeC3 ∧
    "h3" ∈ get_existing_hackathon_ids storeC3 :=
  ⟨rfl, rfl, rfl, by decide⟩

/-- A listing transport that is empty on every page. -/
def capiAllEmpty : Nat → FetchResult (List Challenge) := fun _ => .ok []

/-- A listing transport that is empty on pages 0–19 but would list a closed
parent on page 25. -/
def capiC3late : Nat → FetchResult (List Challenge) :=
  fun page => if page = 25 then .ok [chC3] else .ok []

/-- Witness for `traversal_fixed_twenty_pages`: two transports that differ
only on page 25 produce identical runs — the page beyond 19 is never
requested. -/
theorem traversal_fixed_twenty_pages_witness :
    load_all_data noSym capiAllEmpty papiEmpty store0 =
      load_all_data noSym capiC3late papiEmpty store0 :=
  traversal_fixed_twenty_pages noSym capiAllEmpty capiC3late papiEmpty store0
    (by
      intro p hp
      unfold capiAllEmpty capiC3late
      rw [if_neg (by omega)])

/-- C4 (amended): a page fetch that fails with a non-200 status (or a parse
failure) is not retried and is not recorded as failed: `fetch_challenges_page`
logs and returns `[]`, the same value an empty page yields, so the run
treats the failed page exactly like an empty page (skipping it via
`continue`): the run over a transport failing on page `p` is identical to
the run over a transport whose page `p` is empty.  The failure never
terminates the traversal — nothing does before page 19 — but it is
indistinguishable from the exhaustion-style empty page. -/
theorem fetch_failure_indistinguishable (capi capi' : Nat → FetchResult (List Challenge))
    (code p : Nat)
    (hfail : capi p = .httpError code) (hempty : capi' p = .ok [])
    (hrest : ∀ q, q ≠ p → capi q = capi' q) :
    fetch_challenges_page capi p = [] ∧
    ∀ (isSym : Char → Bool) (papi : String → FetchResult (List Project)) (s0 : Store),
      load_all_data isSym capi papi s0 = load_all_data isSym capi' papi s0 := by
  constructor
  · unfold fetch_challenges_page
    rw [hfail]
  · intro isSym papi s0
    unfold load_all_data
    apply foldE_congr
    intro t page _
    unfold processPage
    dsimp only []
    have hf : fetch_challenges_page capi page = fetch_challenges_page capi' page := by
      by_cases hq : page = p
      · subst hq
        unfold fetch_challenges_page
        rw [hfail, hempty]
      · unfold fetch_challenges_page
        rw [hrest page hq]
    rw [hf]

/-- A listing transport failing with HTTP 500 on page 0. -/
def capiC4fail : Nat → FetchResult (List Challenge) :=
  fun page => if page = 0 then .httpError 500 else .ok []

/-- Witness for `fetch_failure_indistinguishable`: the 500-on-page-0 run
equals the all-pages-empty run. -/
theorem fetch_failure_indistinguishable_witness :
    fetch_challenges_page capiC4fail 0 = [] ∧
    load_all_data noSym capiC4fail papiEmpty store0 =
      load_all_data noSym capiAllEmpty papiEmpty store0 :=
  ⟨(fetch_failure_indistinguishable capiC4fail capiAllEmpty 500 0 rfl rfl
      (fun q hq => by unfold capiC4fail capiAllEmpty; rw [if_neg hq])).1,
   (fetch_failure_indistinguishable capiC4fail capiAllEmpty 500 0 rfl rfl
      (fun q hq => by unfold capiC4fail capiAllEmpty; rw [if_neg hq])).2
     noSym papiEmpty store0⟩

/-- Counterexample to C4 as stated: the outcome of a non-200 fetch is the
empty list — literally the same value as an empty page — so the failure is
not distinguishable from exhaustion, and the whole run on a failing
transport coincides with the run on an empty-page transport; no retry and
no failure record exist. -/
theorem fetch_failure_counterexample :
    capiC4fail 0 = FetchResult.httpError 500 ∧
    capiAllEmpty 0 = FetchResult.ok [] ∧
    fetch_challenges_page capiC4fail 0 = fetch_challenges_page capiAllEmpty 0 ∧
    load_all_data noSym capiC4fail papiEmpty store0 =
      load_all_data noSym capiAllEmpty papiEmpty store0 :=
  ⟨rfl, rfl, rfl, rfl⟩

theorem foldl_store_inv {α : Type} (f : Store → α → Store) (P : Store → Prop) :
    ∀ (l : List α) (s : Store), (∀ t x, x ∈ l → P t → P (f t x)) → P s →
      P (List.foldl f s l) := by
  intro l
  induction l with
  | nil => intro s _ hP; exact hP
  | cons x xs ih =>
    intro s hstep hP
    rw [List.foldl_cons]
    exact ih (f s x) (fun t y hy => hstep t y (List.mem_cons_of_mem _ hy))
      (hstep s x (List.mem_cons_self _ _) hP)

theorem projects_process_pending (isSym : Char → Bool)
    (web : String → Option String) (s : Store) (h : HackathonRow) :
    (process_pending_hackathon isSym web s h).projects = s.projects := by
  unfold process_pending_hackathon
  split
  · rfl
  · rfl

theorem projects_load_hackathons (isSym : Char → Bool)
    (web : String → Option String) (s : Store) :
    (load_hackathons isSym web s).projects = s.projects := by
  unfold load_hackathons
  exact foldl_store_inv (process_pending_hackathon isSym web)
    (fun t => t.projects = s.projects) _ s
    (fun t x _ hP => by
      show (process_pending_hackathon isSym web t x).projects = s.projects
      rw [projects_process_pending]
      exact hP) rfl

theorem rowId_updateHackathonRow (url description : String) (rid : Nat)
    (r : HackathonRow) :
    (updateHackathonRow url description rid r).rowId = r.rowId := by
  unfold updateHackathonRow
  split
  · rfl
  · rfl

theorem exists_rowId_process_pending (isSym : Char → Bool)
    (web : String → Option String) (t : Store) (h : HackathonRow) (rid : Nat)
    (hA : ∃ r ∈ t.hackathons, r.rowId = rid) :
    ∃ r ∈ (process_pending_hackathon isSym web t h).hackathons, r.rowId = rid := by
  unfold process_pending_hackathon
  split
  · exact hA
  · rcases hA with ⟨r, hr, hrid⟩
    dsimp only []
    refine ⟨updateHackathonRow _ _ h.rowId r, List.mem_map_of_mem _ hr, ?_⟩
    rw [rowId_updateHackathonRow]
    exact hrid

theorem processed_persists_process_pending (isSym : Char → Bool)
    (web : String → Option String) (t : Store) (h : HackathonRow) (rid : Nat)
    (hB : ∃ r ∈ t.hackathons, r.rowId = rid ∧ r.processed = true) :
    ∃ r ∈ (process_pending_hackathon isSym web t h).hackathons,
      r.rowId = rid ∧ r.processed = true := by
  unfold process_pending_hackathon
  split
  · exact hB
  · rcases hB with ⟨r, hr, hrid, hp⟩
    dsimp only []
    refine ⟨updateHackathonRow _ _ h.rowId r, List.mem_map_of_mem _ hr, ?_, ?_⟩
    · rw [rowId_updateHackathonRow]
      exact hrid
    · unfold updateHackathonRow
      split
      · rfl
      · exact hp

theorem process_pending_marks_processed (isSym : Char → Bool)
    (web : String → Option String) (t : Store) (h : HackathonRow)
    (hslug : ¬h.slug = "")
    (hA : ∃ r ∈ t.hackathons, r.rowId = h.rowId) :
    ∃ r ∈ (process_pending_hackathon isSym web t h).hackathons,
      r.rowId = h.rowId ∧ r.processed = true := by
  unfold process_pending_hackathon
  rw [if_neg hslug]
  rcases hA with ⟨r, hr, hrid⟩
  dsimp only []
  refine ⟨updateHackathonRow _ _ h.rowId r, List.mem_map_of_mem _ hr, ?_, ?_⟩
  · rw [rowId_updateHackathonRow]
    exact hrid
  · unfold updateHackathonRow
    rw [if_pos hrid]

theorem pending_row_gets_processed (isSym : Char → Bool)
    (web : String → Option String) (s : Store) (h : HackathonRow)
    (hmem : h ∈ s.hackathons) (hp : h.processed = false) (hslug : ¬h.slug = "") :
    ∃ r ∈ (load_hackathons isSym web s).hackathons,
      r.rowId = h.rowId ∧ r.processed = true := by
  unfold load_hackathons
  have hpend : h ∈ s.hackathons.filter (fun x => x.processed == false) :=
    List.mem_filter.mpr ⟨hmem, by rw [hp]; rfl⟩
  rcases List.append_of_mem hpend with ⟨l1, l2, hsplit⟩
  rw [hsplit, List.foldl_append, List.foldl_cons]
  have hA0 : ∃ r ∈ s.hackathons, r.rowId = h.rowId := ⟨h, hmem, rfl⟩
  have hA1 := foldl_store_inv (process_pending_hackathon isSym web)
    (fun t => ∃ r ∈ t.hackathons, r.rowId = h.rowId) l1 s
    (fun t x _ => exists_rowId_process_pending isSym web t x h.rowId) hA0
  have hB1 := process_pending_marks_processed isSym web _ h hslug hA1
  exact foldl_store_inv (process_pending_hackathon isSym web)
    (fun t => ∃ r ∈ t.hackathons, r.rowId = h.rowId ∧ r.processed = true) l2 _
    (fun t x _ => processed_persists_process_pending isSym web t x h.rowId) hB1

/-- C2 (amended): the detail phase `load_hackathons` marks a pending parent
`processed = True` as soon as its own overview page has been scraped,
with no condition on its children whatsoever — and it never touches the
`projects` table, so children still pending (every child is created with
`processed = False` and `load_hackathons` never updates one) stay pending
while the parent becomes PROCESSED. -/
theorem parent_processed_regardless_of_children (isSym : Char → Bool)
    (web : String → Option String) (s : Store) (h : HackathonRow)
    (hmem : h ∈ s.hackathons) (hp : h.processed = false) (hslug : ¬h.slug = "") :
    (load_hackathons isSym web s).projects = s.projects ∧
    ∃ r ∈ (load_hackathons isSym web s).hackathons,
      r.rowId = h.rowId ∧ r.processed = true :=
  ⟨projects_load_hackathons isSym web s,
   pending_row_gets_processed isSym web s h hmem hp hslug⟩

/-- The parent of the C2 scenario as listed by the source. -/
def chC2 : Challenge :=
  { id := some "h1", name := some "H1", slug := some "h1",
    isClosed := some true,
    organization := some { id := "o", name := "O", slug := "o" },
    industries := [] }

/-- Listing transport of the C2 scenario. -/
def capiC2 : Nat → FetchResult (List Challenge) :=
  fun page => if page = 0 then .ok [chC2] else .ok []

/-- Projects transport of the C2 scenario: the parent has one child. -/
def papiC2 : String → FetchResult (List Project) :=
  fun _ => .ok [{ id := some "p1", name := some "P1", description := some "D1" }]

/-- Browser of the C2 scenario: every overview page has body text. -/
def webC2 : String → Option String := fun _ => some "About"

/-- The parent row after the listing phase of the C2 scenario. -/
def rowC2mid : HackathonRow :=
  { rowId := 0, external_id := "h1", organization_id := "o",
    organization_name := "O", organization_slug := "o", slug := "h1",
    name := "H1", industries := [], processed := false, url := none,
    description := none }

/-- The child row created by the listing phase of the C2 scenario. -/
def projC2 : ProjectRow :=
  { external_id := "p1", hackathon_id := 0, title := "P1",
    description := "D1", tags := [],
    url := "https://taikai.network/project/p1", processed := false }

/-- The store after the listing phase of the C2 scenario. -/
def storeC2mid : Store :=
  { hackathons := [rowC2mid], projects := [projC2], nextId := 1 }

/-- The parent row after the detail phase of the C2 scenario. -/
def rowC2fin : HackathonRow :=
  { rowC2mid with
    url := some "https://taikai.network/o/hackathons/h1",
    description := some "About",
    processed := true }

/-- The store after the detail phase of the C2 scenario: the parent is
processed, its child is not. -/
def storeC2fin : Store :=
  { hackathons := [rowC2fin], projects := [projC2], nextId := 1 }

/-- Counterexample to C2 as stated: in a state reached by running the
listing phase and then the detail phase on a one-parent/one-child source,
the parent ends with `processed = true` while its child still has
`processed = false` — the parent is marked PROCESSED without its children
having been processed. -/
theorem parent_processed_counterexample :
    load_all_data noSym capiC2 papiC2 store0 = .ok storeC2mid ∧
    load_hackathons noSym webC2 storeC2mid = storeC2fin ∧
    storeC2fin.hackathons.map (fun r => r.processed) = [true] ∧
    storeC2fin.projects.map (fun r => r.processed) = [false] ∧
    storeC2fin.projects.map (fun r => r.hackathon_id) = [0] ∧
    storeC2fin.hackathons.map (fun r => r.rowId) = [0] :=
  ⟨rfl, rfl, rfl, rfl, rfl, rfl⟩

/-- Witness for `parent_processed_regardless_of_children` at the C2
scenario store. -/
theorem parent_processed_regardless_of_children_witness :
    (load_hackathons noSym webC2 storeC2mid).projects = storeC2mid.projects :=
  (parent_processed_regardless_of_children noSym webC2 storeC2mid rowC2mid
    (by decide) rfl (by decide)).1

theorem updateHackathonRow_other (url description : String) (rid : Nat)
    (r : HackathonRow) (h : ¬r.rowId = rid) :
    updateHackathonRow url description rid r = r := by
  unfold updateHackathonRow
  rw [if_neg h]

/-- C10: a pending hackathon row whose slug is empty/absent is left
completely untouched by the detail phase — the very same row (same `url`,
`description` and `processed = false`) is still in the store afterwards,
the `projects` table is untouched, and the remaining pending rows with a
slug are still processed.  The store is assumed to have unique primary
keys. -/
theorem missing_slug_row_untouched (isSym : Char → Bool)
    (web : String → Option String) (s : Store) (h : HackathonRow)
    (hmem : h ∈ s.hackathons) (hp : h.processed = false) (hslug : h.slug = "")
    (hnodup : (s.hackathons.map (fun r => r.rowId)).Nodup) :
    h ∈ (load_hackathons isSym web s).hackathons ∧
    (load_hackathons isSym web s).projects = s.projects ∧
    ∀ h2 ∈ s.hackathons, h2.processed = false → ¬h2.slug = "" →
      ∃ r ∈ (load_hackathons isSym web s).hackathons,
        r.rowId = h2.rowId ∧ r.processed = true := by
  refine ⟨?_, projects_load_hackathons isSym web s,
    fun h2 hm2 hp2 hs2 => pending_row_gets_processed isSym web s h2 hm2 hp2 hs2⟩
  unfold load_hackathons
  refine foldl_store_inv (process_pending_hackathon isSym web)
    (fun t => h ∈ t.hackathons) _ s ?_ hmem
  intro t x hx hP
  show h ∈ (process_pending_hackathon isSym web t x).hackathons
  unfold process_pending_hackathon
  split
  · exact hP
  · rename_i hxslug
    dsimp only []
    have hxmem : x ∈ s.hackathons := (List.mem_filter.mp hx).1
    have hne : ¬h.rowId = x.rowId := by
      intro heq
      have hxh : x = h :=
        List.inj_on_of_nodup_map hnodup hxmem hmem heq.symm
      rw [hxh] at hxslug
      exact hxslug hslug
    refine List.mem_map.mpr ⟨h, hP, ?_⟩
    exact updateHackathonRow_other _ _ x.rowId h hne

/-- The slug-less pending row of the C10 scenario. -/
def rowC10 : HackathonRow :=
  { rowId := 5, external_id := "h5", organization_id := "o",
    organization_name := "O", organization_slug := "o", slug := "",
    name := "H5", industries := [], processed := false, url := none,
    description := none }

/-- A second pending row with a slug, processed normally. -/
def rowC10b : HackathonRow :=
  { rowId := 6, external_id := "h6", organization_id := "o",
    organization_name := "O", organization_slug := "o", slug := "ok",
    name := "H6", industries := [], processed := false, url := none,
    description := none }

/-- The store of the C10 scenario. -/
def storeC10 : Store :=
  { hackathons := [rowC10, rowC10b], projects := [], nextId := 7 }

/-- Browser of the C10 scenario. -/
def webC10 : String → Option String := fun _ => some "X"

/-- Witness for `missing_slug_row_untouched`: the slug-less row survives
the detail phase unchanged. -/
theorem missing_slug_row_untouched_witness :
    rowC10 ∈ (load_hackathons noSym webC10 storeC10).hackathons :=
  (missing_slug_row_untouched noSym webC10 storeC10 rowC10
    (by decide) rfl rfl (by decide)).1
